import Mathlib

/-!
Shallow embedding of the named-entity-recognition pipeline implemented in
src/pipelines/ner.rs (struct Entity, struct NERModel, NERModel::new,
NERModel::prepare_for_model, NERModel::predict).

External collaborators (the BERT tokenizer, the BertForTokenClassification
forward pass, and the tensor exponential kernel) are modelled as function
parameters; the logic implemented in ner.rs itself (batch padding, the
softmax expression, the argmax decode loop, the label-mapping lookup) is
translated directly.

Rust control flow is modelled explicitly: a panic (expect / unwrap) is a
`panicked` outcome carrying the panic message, while a typed error returned
through failure::Fallible is an `err` outcome. NERModel::predict has Rust
type Vec<Entity> with no error channel, so its embedded error type is Empty:
the only failure mode the signature admits is a panic.

Floating-point scores are modelled over a generic score type carrying the
operations the source uses (order for argmax, addition and division for the
softmax expression), so the same definitions can be read at ℝ (with
Real.exp for the tensor exponential, for the numerical claims) and at
kernel-computable instances for concrete evaluation.
-/

/-- Entity generated by a NERModel (struct Entity in ner.rs). The score type
is the ordered field standing in for f64. -/
structure Entity (α : Type) where
  word : String
  score : α
  label : String
  deriving DecidableEq

/-- Outcome of a Rust call: a normal return, a typed error returned to the
caller (a failure::Fallible Err), or a process panic (expect / unwrap),
carrying the panic message. -/
inductive RustOutcome (ε α : Type) where
  | ok : α → RustOutcome ε α
  | err : ε → RustOutcome ε α
  | panicked : String → RustOutcome ε α
  deriving DecidableEq

/-- Typed error propagated by var_store.load(weights_path)? in
NERModel::new (an external collaborator failure). -/
inductive LoadError where
  | loadFailure : String → LoadError
  deriving DecidableEq

/-- NERModel::new, reduced to the parts visible in ner.rs that the claims
are about. Tokenizer, config parsing and classifier construction are
external collaborators. The line
  config.id2label.expect("No label dictionary (id2label) provided in configuration file")
panics when id2label is absent, and it runs before var_store.load(weights_path)?,
which is the only typed-error exit of the function. The constructed state is
reduced to the label mapping, the one constructed field the claims use. -/
def NERModel.new (id2label : Option (Int → Option String))
    (loadWeights : Except LoadError Unit) :
    RustOutcome LoadError (Int → Option String) :=
  match id2label with
  | none =>
    RustOutcome.panicked "No label dictionary (id2label) provided in configuration file"
  | some labelMapping =>
    match loadWeights with
    | Except.error e => RustOutcome.err e
    | Except.ok _ => RustOutcome.ok labelMapping

/-- NERModel::prepare_for_model. The tokenizer call
encode_list(input, 128, LongestFirst, 0) is an external collaborator,
modelled as mapping a tokenize function over the batch (one token-id
sequence per input text, truncation already applied by the tokenizer).
max_len is tokenized_input.iter().map(len).max().unwrap(); on an empty
batch the unwrap panics, modelled as none. Every row is then extended with
vec![0; max_len - row.len()] and the rows are stacked. -/
def prepare_for_model (tokenize : String → List Int) (input : List String) :
    Option (List (List Int)) :=
  let tokenized := input.map tokenize
  match (tokenized.map List.length).max? with
  | none => none
  | some maxLen =>
    some (tokenized.map (fun row => row ++ List.replicate (maxLen - row.length) 0))

/-- The score normalization in predict:
  score = output.exp() / output.exp().sum1(&[-1], true, Float)
applied to one label-axis vector. The elementwise exponential is a tensor
kernel (external), passed as the parameter e. -/
def softmaxBy {α : Type} [Add α] [Zero α] [Div α] (e : α → α) (v : List α) : List α :=
  v.map (fun x => e x / (v.map e).sum)

/-- tch argmax along the last axis for one label-axis vector: the first
index at which the maximum value occurs (ties resolved to the lowest
label-id); 0 on the empty list. -/
def argmaxIdx {α : Type} [LinearOrder α] : List α → Nat
  | [] => 0
  | x :: xs => (x :: xs).indexOf (xs.foldl max x)

/-- The score tensor of predict: softmax applied along the label axis of
the logits tensor output, per (sentence, position). -/
def scoreTensor {α : Type} [Add α] [Zero α] [Div α] (e : α → α) (output : List (List (List α))) :
    List (List (List α)) :=
  output.map (List.map (softmaxBy e))

/-- The inner loop of predict over position_idx for one sentence, with the
(sentence_idx, position_idx) loop indices recorded on each produced Entity.
For each position: label := the argmax of the score vector (an i64 in the
source, always a nonnegative index, so carried here as a Nat); positions
with label == 0 are skipped; otherwise an Entity is pushed whose word
decodes the input-tensor cell at (sentence_idx, position_idx), whose score
is the score-tensor value at (sentence_idx, position_idx, label), and whose
label resolves through
  label_mapping.get(&label).expect("Index out of vocabulary bounds.")
— the expect is a panic, modelled as Except.error carrying the message. -/
def decodeRow {α : Type} [LinearOrder α] [Zero α] (decodeToken : Int → String)
    (labelMapping : Int → Option String) (inputRow : List Int) (s : Nat) :
    Nat → List (List α) → Except String (List ((Nat × Nat) × Entity α))
  | _, [] => Except.ok []
  | p, v :: rest =>
    let label : Nat := argmaxIdx v
    if label ≠ 0 then
      match labelMapping (Int.ofNat label) with
      | none => Except.error "Index out of vocabulary bounds."
      | some name =>
        match decodeRow decodeToken labelMapping inputRow s (p + 1) rest with
        | Except.error msg => Except.error msg
        | Except.ok es =>
          Except.ok (((s, p),
            { word := decodeToken (inputRow.getD p 0)
              score := v.getD label 0
              label := name }) :: es)
    else
      decodeRow decodeToken labelMapping inputRow s (p + 1) rest

/-- The outer loop of predict over sentence_idx: one decodeRow pass per
sentence of the score tensor, results concatenated in sentence order; a
panic anywhere aborts the whole call. -/
def decodeBatch {α : Type} [LinearOrder α] [Zero α] (decodeToken : Int → String)
    (labelMapping : Int → Option String) (inputTensor : List (List Int)) :
    Nat → List (List (List α)) → Except String (List ((Nat × Nat) × Entity α))
  | _, [] => Except.ok []
  | s, row :: rest =>
    match decodeRow decodeToken labelMapping (inputTensor.getD s []) s 0 row with
    | Except.error msg => Except.error msg
    | Except.ok es =>
      match decodeBatch decodeToken labelMapping inputTensor (s + 1) rest with
      | Except.error msg => Except.error msg
      | Except.ok es2 => Except.ok (es ++ es2)

/-- The score tensor computed inside a given predict call ([] when the call
panics before reaching it). -/
def scoreGridOf {α : Type} [LinearOrder α] [Zero α] [Add α] [Div α] (e : α → α)
    (tokenize : String → List Int)
    (forward : List (List Int) → List (List (List α))) (input : List String) :
    List (List (List α)) :=
  match prepare_for_model tokenize input with
  | none => []
  | some inputTensor => scoreTensor e (forward inputTensor)

/-- NERModel::predict with the (sentence_idx, position_idx) loop indices
kept on each produced Entity. The forward pass of
BertForTokenClassification and the tokenizer decode are external
collaborators passed as functions. -/
def predictIdx {α : Type} [LinearOrder α] [Zero α] [Add α] [Div α] (e : α → α)
    (tokenize : String → List Int)
    (forward : List (List Int) → List (List (List α)))
    (decodeToken : Int → String) (labelMapping : Int → Option String)
    (input : List String) :
    RustOutcome Empty (List ((Nat × Nat) × Entity α)) :=
  match prepare_for_model tokenize input with
  | none => RustOutcome.panicked "called Option::unwrap on a None value"
  | some inputTensor =>
    match decodeBatch decodeToken labelMapping inputTensor 0
        (scoreTensor e (forward inputTensor)) with
    | Except.error msg => RustOutcome.panicked msg
    | Except.ok es => RustOutcome.ok es

/-- NERModel::predict. Its Rust signature returns Vec<Entity> with no error
channel (the embedded typed-error type is Empty), so the only failure mode
the signature admits is a panic. -/
def predict {α : Type} [LinearOrder α] [Zero α] [Add α] [Div α] (e : α → α)
    (tokenize : String → List Int)
    (forward : List (List Int) → List (List (List α)))
    (decodeToken : Int → String) (labelMapping : Int → Option String)
    (input : List String) :
    RustOutcome Empty (List (Entity α)) :=
  match predictIdx e tokenize forward decodeToken labelMapping input with
  | RustOutcome.ok es => RustOutcome.ok (es.map Prod.snd)
  | RustOutcome.err e0 => e0.elim
  | RustOutcome.panicked msg => RustOutcome.panicked msg

/-! Helper lemmas about foldl max and argmaxIdx. -/

/-- The left fold of max over a list is one of its inputs. -/
lemma foldl_max_mem {α : Type} [LinearOrder α] (xs : List α) :
    ∀ x : α, xs.foldl max x ∈ x :: xs := by
  induction xs with
  | nil => intro x; simp
  | cons a xs ih =>
    intro x
    simp only [List.foldl_cons]
    rcases List.mem_cons.mp (ih (max x a)) with h | h
    · rcases max_choice x a with h2 | h2 <;> rw [h, h2]
      · exact List.mem_cons_self _ _
      · exact List.mem_cons_of_mem _ (List.mem_cons_self _ _)
    · exact List.mem_cons_of_mem _ (List.mem_cons_of_mem _ h)

/-- The left fold of max over a list bounds every input from above. -/
lemma le_foldl_max {α : Type} [LinearOrder α] (xs : List α) :
    ∀ x : α, ∀ y ∈ x :: xs, y ≤ xs.foldl max x := by
  induction xs with
  | nil =>
    intro x y hy
    rcases List.mem_cons.mp hy with rfl | h
    · exact le_rfl
    · cases h
  | cons a xs ih =>
    intro x y hy
    simp only [List.foldl_cons]
    rcases List.mem_cons.mp hy with rfl | hy2
    · exact le_trans (le_max_left y a) (ih (max y a) _ (List.mem_cons_self _ _))
    · rcases List.mem_cons.mp hy2 with rfl | hy3
      · exact le_trans (le_max_right x y) (ih (max x y) _ (List.mem_cons_self _ _))
      · exact ih (max x a) y (List.mem_cons_of_mem _ hy3)

/-- The argmax index of a nonempty list is in range. -/
lemma argmaxIdx_lt_length {α : Type} [LinearOrder α] (v : List α) (h : v ≠ []) :
    argmaxIdx v < v.length := by
  cases v with
  | nil => cases h rfl
  | cons x xs => exact List.indexOf_lt_length.mpr (foldl_max_mem xs x)

/-- Reading a nonempty list at its argmax index yields the maximum value. -/
lemma getD_argmaxIdx {α : Type} [LinearOrder α] (x : α) (xs : List α) (d : α) :
    (x :: xs).getD (argmaxIdx (x :: xs)) d = xs.foldl max x := by
  have hmem : xs.foldl max x ∈ x :: xs := foldl_max_mem xs x
  have hlt : List.indexOf (xs.foldl max x) (x :: xs) < (x :: xs).length :=
    List.indexOf_lt_length.mpr hmem
  rw [argmaxIdx, List.getD_eq_getElem _ _ hlt]
  have := List.indexOf_get hlt
  rw [List.get_eq_getElem] at this
  exact this

/-- The value at the argmax index is a member of the list. -/
lemma getD_argmaxIdx_mem {α : Type} [LinearOrder α] (v : List α) (h : v ≠ []) (d : α) :
    v.getD (argmaxIdx v) d ∈ v := by
  cases v with
  | nil => cases h rfl
  | cons x xs => rw [getD_argmaxIdx]; exact foldl_max_mem xs x

/-- Every member of the list is bounded by the value at the argmax index. -/
lemma le_getD_argmaxIdx {α : Type} [LinearOrder α] (v : List α) (d : α) :
    ∀ y ∈ v, y ≤ v.getD (argmaxIdx v) d := by
  cases v with
  | nil => intro y hy; cases hy
  | cons x xs =>
    intro y hy
    rw [getD_argmaxIdx]
    exact le_foldl_max xs x y hy

/-- A nonzero argmax index forces the list to be nonempty. -/
lemma ne_nil_of_argmaxIdx_ne_zero {α : Type} [LinearOrder α] (v : List α)
    (h : argmaxIdx v ≠ 0) : v ≠ [] := by
  intro hv
  subst hv
  exact h rfl

/-! Helper lemmas about getD and replicate. -/

/-- getD commutes with map when the default is transported through the map. -/
lemma getD_map_fn {β γ : Type} (f : β → γ) (l : List β) (i : Nat) (d : β) :
    (l.map f).getD i (f d) = f (l.getD i d) := by
  induction l generalizing i with
  | nil => simp
  | cons a l ih =>
    cases i with
    | zero => simp
    | succ j => simp [ih j]

/-- Reading a replicate at any index with the replicated default. -/
lemma getD_replicate_self {β : Type} (n i : Nat) (c : β) :
    (List.replicate n c).getD i c = c := by
  by_cases h : i < n
  · rw [List.getD_eq_getElem _ _ (by simpa using h)]
    exact List.getElem_replicate _ _
  · exact List.getD_eq_default _ _ (by simpa using Nat.le_of_not_lt h)

/-! Helper lemmas about prepare_for_model. -/

/-- On a nonempty batch, prepare_for_model succeeds and returns exactly the
tokenized rows, each right-extended with the padding id 0 up to the maximum
tokenized length of the batch. -/
lemma prepare_for_model_eq (tokenize : String → List Int) (input : List String)
    (h : input ≠ []) :
    ∃ m, ((input.map tokenize).map List.length).max? = some m ∧
      prepare_for_model tokenize input =
        some ((input.map tokenize).map
          (fun row => row ++ List.replicate (m - row.length) 0)) := by
  obtain ⟨m, hm⟩ : ∃ m, ((input.map tokenize).map List.length).max? = some m := by
    cases hmm : ((input.map tokenize).map List.length).max? with
    | none =>
      rw [List.max?_eq_none_iff] at hmm
      simp only [List.map_eq_nil_iff] at hmm
      exact absurd hmm h
    | some m => exact ⟨m, rfl⟩
  refine ⟨m, hm, ?_⟩
  simp only [prepare_for_model]
  rw [hm]

/-- The maximum length returned inside prepare_for_model is attained by some
tokenized row and bounds every tokenized row. -/
lemma max?_length_spec (tokenized : List (List Int)) (m : Nat)
    (hm : (tokenized.map List.length).max? = some m) :
    m ∈ tokenized.map List.length ∧ ∀ t ∈ tokenized, t.length ≤ m := by
  constructor
  · exact List.max?_mem (fun a b => max_choice a b) hm
  · intro t ht
    exact (List.max?_le_iff (fun a b c => Nat.max_le) hm).mp le_rfl _
      (List.mem_map_of_mem _ ht)

/-! Helper lemmas about decodeRow. -/

/-- Inversion principle for one step of the position loop. -/
lemma decodeRow_cons_ok_iff {α : Type} [LinearOrder α] [Zero α] (dt : Int → String)
    (lm : Int → Option String) (ir : List Int) (s p : Nat) (v : List α)
    (rest : List (List α)) (es : List ((Nat × Nat) × Entity α)) :
    decodeRow dt lm ir s p (v :: rest) = Except.ok es ↔
      ((argmaxIdx v = 0 ∧ decodeRow dt lm ir s (p + 1) rest = Except.ok es) ∨
       (argmaxIdx v ≠ 0 ∧ ∃ name es2,
         lm (Int.ofNat (argmaxIdx v)) = some name ∧
         decodeRow dt lm ir s (p + 1) rest = Except.ok es2 ∧
         es = ((s, p),
           { word := dt (ir.getD p 0), score := v.getD (argmaxIdx v) 0,
             label := name }) :: es2)) := by
  simp only [decodeRow]
  by_cases hz : argmaxIdx v ≠ 0
  · rw [if_pos hz]
    cases hlm : lm (Int.ofNat (argmaxIdx v)) with
    | none => simp [hz]
    | some name =>
      cases hrec : decodeRow dt lm ir s (p + 1) rest with
      | error msg => simp [hz, hrec]
      | ok es2 => simp [hz, hrec, eq_comm]
  · rw [if_neg hz]
    push_neg at hz
    simp [hz]

/-- The position loop either returns entities or panics with the label-lookup
message; no other outcome exists. -/
lemma decodeRow_ok_or_error {α : Type} [LinearOrder α] [Zero α] (dt : Int → String)
    (lm : Int → Option String) (ir : List Int) (s : Nat) :
    ∀ (rows : List (List α)) (p : Nat),
      (∃ es, decodeRow dt lm ir s p rows = Except.ok es) ∨
      decodeRow dt lm ir s p rows = Except.error "Index out of vocabulary bounds." := by
  intro rows
  induction rows with
  | nil => intro p; exact Or.inl ⟨[], rfl⟩
  | cons v rest ih =>
    intro p
    simp only [decodeRow]
    by_cases hz : argmaxIdx v ≠ 0
    · rw [if_pos hz]
      cases hlm : lm (Int.ofNat (argmaxIdx v)) with
      | none => exact Or.inr rfl
      | some name =>
        rcases ih (p + 1) with ⟨es, hes⟩ | herr
        · rw [hes]; exact Or.inl ⟨_, rfl⟩
        · rw [herr]; exact Or.inr rfl
    · rw [if_neg hz]
      exact ih (p + 1)

/-- Any panic of the position loop carries the label-lookup message. -/
lemma decodeRow_error_msg {α : Type} [LinearOrder α] [Zero α] (dt : Int → String)
    (lm : Int → Option String) (ir : List Int) (s p : Nat) (rows : List (List α))
    (msg : String) (h : decodeRow dt lm ir s p rows = Except.error msg) :
    msg = "Index out of vocabulary bounds." := by
  rcases decodeRow_ok_or_error dt lm ir s rows p with ⟨es, hes⟩ | herr
  · rw [hes] at h; cases h
  · rw [herr] at h
    injection h with h2
    exact h2.symm

/-- Every entity produced by the position loop comes from an in-range
position offset k whose score vector has a nonzero argmax; its label
resolves through the mapping, its word decodes the input-tensor cell at its
position, and its score is the score-vector value at the argmax. -/
lemma decodeRow_ok_mem {α : Type} [LinearOrder α] [Zero α] (dt : Int → String)
    (lm : Int → Option String) (ir : List Int) (s : Nat) :
    ∀ (rows : List (List α)) (p : Nat) (es : List ((Nat × Nat) × Entity α)),
      decodeRow dt lm ir s p rows = Except.ok es →
      ∀ x ∈ es, ∃ k, k < rows.length ∧ x.1 = (s, p + k) ∧
        argmaxIdx (rows.getD k []) ≠ 0 ∧
        lm (Int.ofNat (argmaxIdx (rows.getD k []))) = some x.2.label ∧
        x.2.word = dt (ir.getD (p + k) 0) ∧
        x.2.score = (rows.getD k []).getD (argmaxIdx (rows.getD k [])) 0 := by
  intro rows
  induction rows with
  | nil =>
    intro p es h x hx
    simp only [decodeRow] at h
    injection h with h2
    subst h2
    cases hx
  | cons v rest ih =>
    intro p es h x hx
    rcases (decodeRow_cons_ok_iff dt lm ir s p v rest es).mp h with
      ⟨hz, hrec⟩ | ⟨hz, name, es2, hlm, hrec, rfl⟩
    · obtain ⟨k, hk, hcoord, hnz, hlm2, hword, hscore⟩ := ih (p + 1) es hrec x hx
      refine ⟨k + 1, by simpa using Nat.succ_lt_succ hk, ?_, ?_, ?_, ?_, ?_⟩
      · rw [hcoord]; congr 1; omega
      · simpa [List.getD_cons_succ] using hnz
      · simpa [List.getD_cons_succ] using hlm2
      · rw [hword]; congr 2; omega
      · simpa [List.getD_cons_succ] using hscore
    · rcases List.mem_cons.mp hx with rfl | hx2
      · exact ⟨0, by simp, by simp, by simpa using hz, by simpa using hlm,
          by simp, by simp⟩
      · obtain ⟨k, hk, hcoord, hnz, hlm2, hword, hscore⟩ := ih (p + 1) es2 hrec x hx2
        refine ⟨k + 1, by simpa using Nat.succ_lt_succ hk, ?_, ?_, ?_, ?_, ?_⟩
        · rw [hcoord]; congr 1; omega
        · simpa [List.getD_cons_succ] using hnz
        · simpa [List.getD_cons_succ] using hlm2
        · rw [hword]; congr 2; omega
        · simpa [List.getD_cons_succ] using hscore

/-- Completeness of the position loop: every in-range position whose score
vector has a nonzero argmax contributes an entity when the loop returns. -/
lemma decodeRow_mem_of {α : Type} [LinearOrder α] [Zero α] (dt : Int → String)
    (lm : Int → Option String) (ir : List Int) (s : Nat) :
    ∀ (rows : List (List α)) (p : Nat) (es : List ((Nat × Nat) × Entity α)) (k : Nat),
      decodeRow dt lm ir s p rows = Except.ok es →
      k < rows.length → argmaxIdx (rows.getD k []) ≠ 0 →
      (s, p + k) ∈ es.map Prod.fst := by
  intro rows
  induction rows with
  | nil =>
    intro p es k _ hk _
    cases hk
  | cons v rest ih =>
    intro p es k h hk hnz
    rcases (decodeRow_cons_ok_iff dt lm ir s p v rest es).mp h with
      ⟨hz, hrec⟩ | ⟨hz, name, es2, hlm, hrec, rfl⟩
    · cases k with
      | zero => exact absurd hz (by simpa using hnz)
      | succ k2 =>
        have := ih (p + 1) es k2 hrec (by simpa using Nat.lt_of_succ_lt_succ hk)
          (by simpa [List.getD_cons_succ] using hnz)
        simpa [Nat.add_assoc, Nat.add_comm 1 k2] using this
    · cases k with
      | zero => simp
      | succ k2 =>
        have := ih (p + 1) es2 k2 hrec (by simpa using Nat.lt_of_succ_lt_succ hk)
          (by simpa [List.getD_cons_succ] using hnz)
        rw [List.map_cons]
        refine List.mem_cons_of_mem _ ?_
        simpa [Nat.add_assoc, Nat.add_comm 1 k2] using this

/-- The position loop emits entities of its own sentence in strictly
increasing position order, all at positions at least the starting one. -/
lemma decodeRow_ok_sorted {α : Type} [LinearOrder α] [Zero α] (dt : Int → String)
    (lm : Int → Option String) (ir : List Int) (s : Nat) :
    ∀ (rows : List (List α)) (p : Nat) (es : List ((Nat × Nat) × Entity α)),
      decodeRow dt lm ir s p rows = Except.ok es →
      (∀ x ∈ es, x.1.1 = s ∧ p ≤ x.1.2) ∧
      List.Pairwise (fun x y : (Nat × Nat) × Entity α => x.1.2 < y.1.2) es := by
  intro rows
  induction rows with
  | nil =>
    intro p es h
    simp only [decodeRow] at h
    injection h with h2
    subst h2
    exact ⟨fun x hx => absurd hx (List.not_mem_nil x), List.Pairwise.nil⟩
  | cons v rest ih =>
    intro p es h
    rcases (decodeRow_cons_ok_iff dt lm ir s p v rest es).mp h with
      ⟨hz, hrec⟩ | ⟨hz, name, es2, hlm, hrec, rfl⟩
    · obtain ⟨hb, hp⟩ := ih (p + 1) es hrec
      exact ⟨fun x hx => ⟨(hb x hx).1, le_trans (Nat.le_succ p) (hb x hx).2⟩, hp⟩
    · obtain ⟨hb, hp⟩ := ih (p + 1) es2 hrec
      constructor
      · intro x hx
        rcases List.mem_cons.mp hx with rfl | hx2
        · exact ⟨rfl, le_rfl⟩
        · exact ⟨(hb x hx2).1, le_trans (Nat.le_succ p) (hb x hx2).2⟩
      · refine List.Pairwise.cons ?_ hp
        intro y hy
        exact Nat.lt_of_lt_of_le (Nat.lt_succ_self p) (hb y hy).2

/-- If every score vector of the row has argmax 0, the position loop emits
nothing and cannot fail. -/
lemma decodeRow_all_zero {α : Type} [LinearOrder α] [Zero α] (dt : Int → String)
    (lm : Int → Option String) (ir : List Int) (s : Nat) :
    ∀ (rows : List (List α)) (p : Nat), (∀ v ∈ rows, argmaxIdx v = 0) →
      decodeRow dt lm ir s p rows = Except.ok [] := by
  intro rows
  induction rows with
  | nil => intro p _; rfl
  | cons v rest ih =>
    intro p hall
    have hz : argmaxIdx v = 0 := hall v (List.mem_cons_self _ _)
    simp only [decodeRow]
    rw [if_neg (by simpa using hz)]
    exact ih (p + 1) (fun w hw => hall w (List.mem_cons_of_mem _ hw))

/-- If the position loop returns, every in-range nonzero argmax has a mapped
label name. -/
lemma decodeRow_ok_mapped {α : Type} [LinearOrder α] [Zero α] (dt : Int → String)
    (lm : Int → Option String) (ir : List Int) (s : Nat) :
    ∀ (rows : List (List α)) (p : Nat) (es : List ((Nat × Nat) × Entity α)) (k : Nat),
      decodeRow dt lm ir s p rows = Except.ok es →
      k < rows.length → argmaxIdx (rows.getD k []) ≠ 0 →
      ∃ name, lm (Int.ofNat (argmaxIdx (rows.getD k []))) = some name := by
  intro rows
  induction rows with
  | nil =>
    intro p es k _ hk _
    cases hk
  | cons v rest ih =>
    intro p es k h hk hnz
    rcases (decodeRow_cons_ok_iff dt lm ir s p v rest es).mp h with
      ⟨hz, hrec⟩ | ⟨hz, name, es2, hlm, hrec, rfl⟩
    · cases k with
      | zero => exact absurd hz (by simpa using hnz)
      | succ k2 =>
        exact ih (p + 1) es k2 hrec (by simpa using Nat.lt_of_succ_lt_succ hk)
          (by simpa [List.getD_cons_succ] using hnz)
    · cases k with
      | zero => exact ⟨name, by simpa using hlm⟩
      | succ k2 =>
        exact ih (p + 1) es2 k2 hrec (by simpa using Nat.lt_of_succ_lt_succ hk)
          (by simpa [List.getD_cons_succ] using hnz)

/-! Helper lemmas about decodeBatch. -/

/-- Inversion principle for one step of the sentence loop. -/
lemma decodeBatch_cons_ok_iff {α : Type} [LinearOrder α] [Zero α] (dt : Int → String)
    (lm : Int → Option String) (it : List (List Int)) (s : Nat)
    (row : List (List α)) (rest : List (List (List α)))
    (es : List ((Nat × Nat) × Entity α)) :
    decodeBatch dt lm it s (row :: rest) = Except.ok es ↔
      ∃ es1 es2, decodeRow dt lm (it.getD s []) s 0 row = Except.ok es1 ∧
        decodeBatch dt lm it (s + 1) rest = Except.ok es2 ∧ es = es1 ++ es2 := by
  simp only [decodeBatch]
  cases h1 : decodeRow dt lm (it.getD s []) s 0 row with
  | error msg => simp [h1]
  | ok es1 =>
    cases h2 : decodeBatch dt lm it (s + 1) rest with
    | error msg => simp [h2]
    | ok es2 => simp [h2, eq_comm]

/-- The sentence loop either returns entities or panics with the
label-lookup message; no other outcome exists. -/
lemma decodeBatch_ok_or_error {α : Type} [LinearOrder α] [Zero α] (dt : Int → String)
    (lm : Int → Option String) (it : List (List Int)) :
    ∀ (rows : List (List (List α))) (s : Nat),
      (∃ es, decodeBatch dt lm it s rows = Except.ok es) ∨
      decodeBatch dt lm it s rows = Except.error "Index out of vocabulary bounds." := by
  intro rows
  induction rows with
  | nil => intro s; exact Or.inl ⟨[], rfl⟩
  | cons row rest ih =>
    intro s
    simp only [decodeBatch]
    rcases decodeRow_ok_or_error dt lm (it.getD s []) s row 0 with ⟨es1, h1⟩ | h1
    · rw [h1]
      rcases ih (s + 1) with ⟨es2, h2⟩ | h2
      · rw [h2]; exact Or.inl ⟨_, rfl⟩
      · rw [h2]; exact Or.inr rfl
    · rw [h1]; exact Or.inr rfl

/-- Any panic of the sentence loop carries the label-lookup message. -/
lemma decodeBatch_error_msg {α : Type} [LinearOrder α] [Zero α] (dt : Int → String)
    (lm : Int → Option String) (it : List (List Int)) (s : Nat)
    (rows : List (List (List α))) (msg : String)
    (h : decodeBatch dt lm it s rows = Except.error msg) :
    msg = "Index out of vocabulary bounds." := by
  rcases decodeBatch_ok_or_error dt lm it rows s with ⟨es, hes⟩ | herr
  · rw [hes] at h; cases h
  · rw [herr] at h
    injection h with h2
    exact h2.symm

/-- Every entity the sentence loop returns comes from the position loop of
some in-range sentence. -/
lemma decodeBatch_ok_mem {α : Type} [LinearOrder α] [Zero α] (dt : Int → String)
    (lm : Int → Option String) (it : List (List Int)) :
    ∀ (rows : List (List (List α))) (s : Nat) (es : List ((Nat × Nat) × Entity α)),
      decodeBatch dt lm it s rows = Except.ok es →
      ∀ x ∈ es, ∃ j esj, j < rows.length ∧
        decodeRow dt lm (it.getD (s + j) []) (s + j) 0 (rows.getD j []) =
          Except.ok esj ∧ x ∈ esj := by
  intro rows
  induction rows with
  | nil =>
    intro s es h x hx
    injection h with h2
    subst h2
    cases hx
  | cons row rest ih =>
    intro s es h x hx
    rcases (decodeBatch_cons_ok_iff dt lm it s row rest es).mp h with
      ⟨es1, es2, h1, h2, rfl⟩
    rcases List.mem_append.mp hx with hx1 | hx2
    · exact ⟨0, es1, by simp, by simpa using h1, hx1⟩
    · obtain ⟨j, esj, hj, hrow, hxj⟩ := ih (s + 1) es2 h2 x hx2
      refine ⟨j + 1, esj, by simpa using Nat.succ_lt_succ hj, ?_, hxj⟩
      have hco : s + (j + 1) = s + 1 + j := by omega
      rw [hco, List.getD_cons_succ]
      exact hrow

/-- If the sentence loop returns, the position loop of every in-range
sentence returned as well, and its entities are all in the final list. -/
lemma decodeBatch_ok_rows {α : Type} [LinearOrder α] [Zero α] (dt : Int → String)
    (lm : Int → Option String) (it : List (List Int)) :
    ∀ (rows : List (List (List α))) (s : Nat) (es : List ((Nat × Nat) × Entity α)),
      decodeBatch dt lm it s rows = Except.ok es →
      ∀ j, j < rows.length →
      ∃ esj, decodeRow dt lm (it.getD (s + j) []) (s + j) 0 (rows.getD j []) =
          Except.ok esj ∧ ∀ x ∈ esj, x ∈ es := by
  intro rows
  induction rows with
  | nil =>
    intro s es _ j hj
    cases hj
  | cons row rest ih =>
    intro s es h j hj
    rcases (decodeBatch_cons_ok_iff dt lm it s row rest es).mp h with
      ⟨es1, es2, h1, h2, rfl⟩
    cases j with
    | zero =>
      exact ⟨es1, by simpa using h1, fun x hx => List.mem_append_left _ hx⟩
    | succ j2 =>
      obtain ⟨esj, hrow, hsub⟩ := ih (s + 1) es2 h2 j2 (by simpa using Nat.lt_of_succ_lt_succ hj)
      refine ⟨esj, ?_, fun x hx => List.mem_append_right _ (hsub x hx)⟩
      have hco : s + (j2 + 1) = s + 1 + j2 := by omega
      rw [hco, List.getD_cons_succ]
      exact hrow

/-- The sentence loop emits entities in batch-major order: sentence indices
at least the starting one, and lexicographically ordered
(sentence, position) coordinates. -/
lemma decodeBatch_ok_sorted {α : Type} [LinearOrder α] [Zero α] (dt : Int → String)
    (lm : Int → Option String) (it : List (List Int)) :
    ∀ (rows : List (List (List α))) (s : Nat) (es : List ((Nat × Nat) × Entity α)),
      decodeBatch dt lm it s rows = Except.ok es →
      (∀ x ∈ es, s ≤ x.1.1) ∧
      List.Pairwise (fun x y : (Nat × Nat) × Entity α =>
        x.1.1 < y.1.1 ∨ (x.1.1 = y.1.1 ∧ x.1.2 ≤ y.1.2)) es := by
  intro rows
  induction rows with
  | nil =>
    intro s es h
    injection h with h2
    subst h2
    exact ⟨fun x hx => absurd hx (List.not_mem_nil x), List.Pairwise.nil⟩
  | cons row rest ih =>
    intro s es h
    rcases (decodeBatch_cons_ok_iff dt lm it s row rest es).mp h with
      ⟨es1, es2, h1, h2, rfl⟩
    obtain ⟨hb1, hp1⟩ := decodeRow_ok_sorted dt lm (it.getD s []) s row 0 es1 h1
    obtain ⟨hb2, hp2⟩ := ih (s + 1) es2 h2
    constructor
    · intro x hx
      rcases List.mem_append.mp hx with hx1 | hx2
      · exact le_of_eq (hb1 x hx1).1.symm
      · exact le_trans (Nat.le_succ s) (hb2 x hx2)
    · rw [List.pairwise_append]
      refine ⟨?_, hp2, ?_⟩
      · refine List.Pairwise.imp_of_mem ?_ hp1
        intro a b ha hb hlt
        exact Or.inr ⟨by rw [(hb1 a ha).1, (hb1 b hb).1], le_of_lt hlt⟩
      · intro a ha b hb
        refine Or.inl ?_
        rw [(hb1 a ha).1]
        exact Nat.lt_of_lt_of_le (Nat.lt_succ_self s) (hb2 b hb)

/-- If every score vector of the batch has argmax 0, the sentence loop
returns the empty list. -/
lemma decodeBatch_all_zero {α : Type} [LinearOrder α] [Zero α] (dt : Int → String)
    (lm : Int → Option String) (it : List (List Int)) :
    ∀ (rows : List (List (List α))) (s : Nat),
      (∀ row ∈ rows, ∀ v ∈ row, argmaxIdx v = 0) →
      decodeBatch dt lm it s rows = Except.ok [] := by
  intro rows
  induction rows with
  | nil => intro s _; rfl
  | cons row rest ih =>
    intro s hall
    simp only [decodeBatch]
    rw [decodeRow_all_zero dt lm (it.getD s []) s row 0
      (fun v hv => hall row (List.mem_cons_self _ _) v hv)]
    rw [ih (s + 1) (fun r hr v hv => hall r (List.mem_cons_of_mem _ hr) v hv)]
    rfl

/-- An in-range nonzero argmax whose label id is unmapped forces the
sentence loop to panic with the label-lookup message. -/
lemma decodeBatch_error_of_unmapped {α : Type} [LinearOrder α] [Zero α]
    (dt : Int → String) (lm : Int → Option String) (it : List (List Int))
    (rows : List (List (List α))) (s j k : Nat) (hj : j < rows.length)
    (hk : k < (rows.getD j []).length)
    (hnz : argmaxIdx ((rows.getD j []).getD k []) ≠ 0)
    (hun : lm (Int.ofNat (argmaxIdx ((rows.getD j []).getD k []))) = none) :
    decodeBatch dt lm it s rows = Except.error "Index out of vocabulary bounds." := by
  rcases decodeBatch_ok_or_error dt lm it rows s with ⟨es, hes⟩ | herr
  · obtain ⟨esj, hrow, _⟩ := decodeBatch_ok_rows dt lm it rows s es hes j hj
    obtain ⟨name, hname⟩ :=
      decodeRow_ok_mapped dt lm (it.getD (s + j) []) (s + j) (rows.getD j []) 0 esj k hrow hk hnz
    rw [hname] at hun
    cases hun
  · exact herr

/-! Helper lemmas about the softmax normalization, over a linear ordered
field with a pointwise-positive exponential kernel. -/

/-- The denominator of the softmax expression is positive. -/
lemma softmaxBy_map_sum_pos {α : Type} [LinearOrderedField α] (e : α → α)
    (he : ∀ x, 0 < e x) (v : List α) (hv : v ≠ []) : 0 < (v.map e).sum := by
  refine List.sum_pos _ ?_ (by simpa using hv)
  intro y hy
  obtain ⟨x, _, rfl⟩ := List.mem_map.mp hy
  exact he x

/-- The softmax of a nonempty vector sums to one. -/
lemma softmaxBy_sum_eq_one {α : Type} [LinearOrderedField α] (e : α → α)
    (he : ∀ x, 0 < e x) (v : List α) (hv : v ≠ []) : (softmaxBy e v).sum = 1 := by
  have hS : 0 < (v.map e).sum := softmaxBy_map_sum_pos e he v hv
  simp only [softmaxBy, div_eq_mul_inv]
  rw [List.sum_map_mul_right]
  exact mul_inv_cancel₀ (ne_of_gt hS)

/-- Every softmax output lies in the closed unit interval. -/
lemma softmaxBy_mem_bounds {α : Type} [LinearOrderedField α] (e : α → α)
    (he : ∀ x, 0 < e x) (v : List α) :
    ∀ y ∈ softmaxBy e v, 0 ≤ y ∧ y ≤ 1 := by
  intro y hy
  have hv : v ≠ [] := by
    intro h
    subst h
    simp [softmaxBy] at hy
  have hS : 0 < (v.map e).sum := softmaxBy_map_sum_pos e he v hv
  obtain ⟨x, hx, rfl⟩ := List.mem_map.mp hy
  refine ⟨div_nonneg (le_of_lt (he x)) (le_of_lt hS), ?_⟩
  rw [div_le_one hS]
  refine List.single_le_sum ?_ _ (List.mem_map_of_mem e hx)
  intro z hz
  obtain ⟨w, _, rfl⟩ := List.mem_map.mp hz
  exact le_of_lt (he w)

/-- Reading the score tensor at a (sentence, position) coordinate yields the
softmax of the logits vector at that coordinate (out-of-range coordinates
read the empty vector on both sides). -/
lemma scoreTensor_getD {α : Type} [Add α] [Zero α] [Div α] (e : α → α)
    (out : List (List (List α))) (b p : Nat) :
    ((scoreTensor e out).getD b []).getD p [] =
      softmaxBy e ((out.getD b []).getD p []) := by
  have h1 : (scoreTensor e out).getD b [] = List.map (softmaxBy e) (out.getD b []) := by
    have h0 := getD_map_fn (List.map (softmaxBy e)) out b []
    simpa [scoreTensor] using h0
  rw [h1]
  have h2 := getD_map_fn (softmaxBy e) (out.getD b []) p []
  simpa [softmaxBy] using h2

/-! Glue lemmas connecting predict and predictIdx to the loops. -/

/-- On a nonempty batch, prepare_for_model succeeds. -/
lemma prepare_for_model_isSome (tokenize : String → List Int)
    (input : List String) (h : input ≠ []) :
    (prepare_for_model tokenize input).isSome := by
  obtain ⟨m, _, heq⟩ := prepare_for_model_eq tokenize input h
  rw [heq]
  rfl

/-- The score grid of a call whose batch preparation succeeded. -/
lemma scoreGridOf_eq {α : Type} [LinearOrder α] [Zero α] [Add α] [Div α]
    (e : α → α) (tokenize : String → List Int)
    (forward : List (List Int) → List (List (List α))) (input : List String)
    (t : List (List Int)) (h : prepare_for_model tokenize input = some t) :
    scoreGridOf e tokenize forward input = scoreTensor e (forward t) := by
  simp only [scoreGridOf]
  rw [h]

/-- predictIdx returns entities exactly when the sentence loop does. -/
lemma predictIdx_ok_iff {α : Type} [LinearOrder α] [Zero α] [Add α] [Div α]
    (e : α → α) (tokenize : String → List Int)
    (forward : List (List Int) → List (List (List α)))
    (dt : Int → String) (lm : Int → Option String) (input : List String)
    (t : List (List Int)) (es : List ((Nat × Nat) × Entity α))
    (h : prepare_for_model tokenize input = some t) :
    predictIdx e tokenize forward dt lm input = RustOutcome.ok es ↔
      decodeBatch dt lm t 0 (scoreTensor e (forward t)) = Except.ok es := by
  simp only [predictIdx, h]
  cases hd : decodeBatch dt lm t 0 (scoreTensor e (forward t)) with
  | error msg => simp
  | ok es2 => simp

/-- predictIdx panics exactly as the sentence loop does. -/
lemma predictIdx_panicked {α : Type} [LinearOrder α] [Zero α] [Add α] [Div α]
    (e : α → α) (tokenize : String → List Int)
    (forward : List (List Int) → List (List (List α)))
    (dt : Int → String) (lm : Int → Option String) (input : List String)
    (t : List (List Int)) (msg : String)
    (h : prepare_for_model tokenize input = some t)
    (herr : decodeBatch dt lm t 0 (scoreTensor e (forward t)) = Except.error msg) :
    predictIdx e tokenize forward dt lm input = RustOutcome.panicked msg := by
  simp only [predictIdx, h, herr]

/-- predict strips the loop indices from predictIdx entities. -/
lemma predict_eq_of_idx_ok {α : Type} [LinearOrder α] [Zero α] [Add α] [Div α]
    (e : α → α) (tokenize : String → List Int)
    (forward : List (List Int) → List (List (List α)))
    (dt : Int → String) (lm : Int → Option String) (input : List String)
    (es : List ((Nat × Nat) × Entity α))
    (h : predictIdx e tokenize forward dt lm input = RustOutcome.ok es) :
    predict e tokenize forward dt lm input = RustOutcome.ok (es.map Prod.snd) := by
  simp only [predict, h]

/-- predict propagates a panic of predictIdx unchanged. -/
lemma predict_eq_of_idx_panicked {α : Type} [LinearOrder α] [Zero α] [Add α] [Div α]
    (e : α → α) (tokenize : String → List Int)
    (forward : List (List Int) → List (List (List α)))
    (dt : Int → String) (lm : Int → Option String) (input : List String)
    (msg : String)
    (h : predictIdx e tokenize forward dt lm input = RustOutcome.panicked msg) :
    predict e tokenize forward dt lm input = RustOutcome.panicked msg := by
  simp only [predict, h]

/-! Concrete fixtures used by the witnesses: a kernel-computable score type
(Int), a two-text batch whose first text tokenizes shorter than the second,
a forward pass scoring every position with the same logits vector, and
small label mappings. -/

/-- Witness tokenizer: "a" gets one token, any other text two tokens. -/
def tokFix : String → List Int := fun s0 => if s0 = "a" then [7] else [8, 9]

/-- Witness forward pass: every position receives logits [-1, 5]; under the
identity kernel the softmax expression evaluates to the vector [-1, 1],
whose argmax is label 1. -/
def fwdFix : List (List Int) → List (List (List Int)) :=
  fun t => t.map (fun r => r.map (fun _ => [-1, 5]))

/-- Witness forward pass with argmax 0 everywhere: logits [5, 1] divide to
[0, 0] under the identity kernel. -/
def fwdFixZero : List (List Int) → List (List (List Int)) :=
  fun t => t.map (fun r => r.map (fun _ => [5, 1]))

/-- Witness token decoder. -/
def dtFix : Int → String := fun n => toString n

/-- Witness label mapping knowing only id 1. -/
def lmFix : Int → Option String := fun i => if i = 1 then some "I-LOC" else none

/-- Witness label mapping knowing only id 5 (the predicted id 1 is absent). -/
def lmFixFive : Int → Option String := fun i => if i = 5 then some "B-X" else none

/-- The indexed entity list produced by the fixtures on the batch
["a", "bb"]: all four positions of the padded 2 × 2 batch carry label 1. -/
def esFix : List ((Nat × Nat) × Entity Int) :=
  [((0, 0), { word := "7", score := 1, label := "I-LOC" }),
   ((0, 1), { word := "0", score := 1, label := "I-LOC" }),
   ((1, 0), { word := "8", score := 1, label := "I-LOC" }),
   ((1, 1), { word := "9", score := 1, label := "I-LOC" })]

/-- Claim C9: under the precondition that the input list is non-empty, the
maximum-length computation over the tokenized inputs is defined (the
.max().unwrap() in prepare_for_model cannot hit its panic branch) and batch
building succeeds. -/
theorem claim9_no_unwrap_panic (tokenize : String → List Int)
    (input : List String) (h : input ≠ []) :
    ((input.map tokenize).map List.length).max? ≠ none ∧
    (prepare_for_model tokenize input).isSome := by
  obtain ⟨m, hm, heq⟩ := prepare_for_model_eq tokenize input h
  constructor
  · rw [hm]; exact Option.some_ne_none m
  · rw [heq]; rfl

/-- Witness for C9 at the concrete batch ["a", "bb"]. -/
theorem claim9_witness :
    ((["a", "bb"] : List String) ≠ []) ∧
    (((((["a", "bb"] : List String).map tokFix).map List.length).max? ≠ none) ∧
      (prepare_for_model tokFix ["a", "bb"]).isSome) :=
  ⟨by decide, claim9_no_unwrap_panic tokFix ["a", "bb"] (by decide)⟩

/-- Claim C2: for a non-empty batch, the padded batch built by
prepare_for_model is rectangular with row length the maximum tokenized
length of this call, and each row is its tokenized input extended on the
right (and only on the right) with the padding id 0. -/
theorem claim2_padding (tokenize : String → List Int) (input : List String)
    (h : input ≠ []) :
    ∃ m, ((input.map tokenize).map List.length).max? = some m ∧
      m ∈ (input.map tokenize).map List.length ∧
      (∀ t ∈ input.map tokenize, t.length ≤ m) ∧
      prepare_for_model tokenize input =
        some ((input.map tokenize).map
          (fun row => row ++ List.replicate (m - row.length) (0 : Int))) ∧
      ∀ row ∈ (input.map tokenize).map
          (fun row => row ++ List.replicate (m - row.length) (0 : Int)),
        row.length = m := by
  obtain ⟨m, hm, heq⟩ := prepare_for_model_eq tokenize input h
  obtain ⟨hmem, hle⟩ := max?_length_spec (input.map tokenize) m hm
  refine ⟨m, hm, hmem, hle, heq, ?_⟩
  intro row hrow
  obtain ⟨t, ht, rfl⟩ := List.mem_map.mp hrow
  have hb := hle t ht
  simp only [List.length_append, List.length_replicate]
  omega

/-- Witness for C2 at the concrete batch ["a", "bb"]. -/
theorem claim2_witness :
    ((["a", "bb"] : List String) ≠ []) ∧
    (∃ m, (((["a", "bb"] : List String).map tokFix).map List.length).max? = some m ∧
      m ∈ ((["a", "bb"] : List String).map tokFix).map List.length ∧
      (∀ t ∈ (["a", "bb"] : List String).map tokFix, t.length ≤ m) ∧
      prepare_for_model tokFix ["a", "bb"] =
        some (((["a", "bb"] : List String).map tokFix).map
          (fun row => row ++ List.replicate (m - row.length) (0 : Int))) ∧
      ∀ row ∈ ((["a", "bb"] : List String).map tokFix).map
          (fun row => row ++ List.replicate (m - row.length) (0 : Int)),
        row.length = m) :=
  ⟨by decide, claim2_padding tokFix ["a", "bb"] (by decide)⟩

/-- Claim C8 counterexample: with id2label absent from the configuration and
weight loading able to succeed, NERModel::new does not return a typed,
catchable error — it panics (the expect on config.id2label), so the outcome
is the panicked constructor, not err. -/
theorem claim8_counterexample :
    NERModel.new none (Except.ok ()) =
      RustOutcome.panicked
        "No label dictionary (id2label) provided in configuration file" := rfl

/-- Claim C8 (amended): when the configuration supplies no id2label mapping,
construction fails by panicking with the id2label expect message — before
the weight-loading outcome is even consulted — rather than returning a
typed ConfigurationError to the caller. -/
theorem claim8_amended (loadWeights : Except LoadError Unit) :
    NERModel.new none loadWeights =
      RustOutcome.panicked
        "No label dictionary (id2label) provided in configuration file" := rfl

/-- Claim C1 counterexample: a predict call whose predicted (argmax)
label-id 1 is absent from the label mapping does not fail with a typed,
catchable error — predict has no error channel (its typed-error type is
Empty) and the call panics via the expect on the mapping lookup. -/
theorem claim1_counterexample :
    predict (fun x : Int => x) (fun _ => [7]) fwdFix dtFix (fun _ => none) ["a"] =
      RustOutcome.panicked "Index out of vocabulary bounds." := by decide

/-- Claim C1 (amended): whenever some in-range (sentence, position) of a
non-empty call has a nonzero predicted (argmax) label-id that is absent
from the label mapping, predict aborts by panicking with the expect message
of the mapping lookup — it neither silently skips the token nor returns a
malformed entity; the failure is a panic, not a typed catchable error. -/
theorem claim1_amended {α : Type} [LinearOrder α] [Zero α] [Add α] [Div α]
    (e : α → α) (tokenize : String → List Int)
    (forward : List (List Int) → List (List (List α)))
    (dt : Int → String) (lm : Int → Option String) (input : List String)
    (s p : Nat) (h1 : input ≠ [])
    (hs : s < (scoreGridOf e tokenize forward input).length)
    (hp : p < ((scoreGridOf e tokenize forward input).getD s []).length)
    (hnz : argmaxIdx (((scoreGridOf e tokenize forward input).getD s []).getD p []) ≠ 0)
    (hun : lm (Int.ofNat (argmaxIdx
      (((scoreGridOf e tokenize forward input).getD s []).getD p []))) = none) :
    predict e tokenize forward dt lm input =
      RustOutcome.panicked "Index out of vocabulary bounds." := by
  obtain ⟨m, hm, heq⟩ := prepare_for_model_eq tokenize input h1
  rw [scoreGridOf_eq e tokenize forward input _ heq] at hs hp hnz hun
  exact predict_eq_of_idx_panicked e tokenize forward dt lm input _
    (predictIdx_panicked e tokenize forward dt lm input _ _ heq
      (decodeBatch_error_of_unmapped dt lm _ _ 0 s p hs hp hnz hun))

/-- Witness for the amended C1 at the fixtures: the mapping knows only id 5,
the model predicts id 1 everywhere, and the call panics. -/
theorem claim1_witness :
    ((["a", "bb"] : List String) ≠ []) ∧
    (0 < (scoreGridOf (fun x : Int => x) tokFix fwdFix ["a", "bb"]).length) ∧
    (0 < ((scoreGridOf (fun x : Int => x) tokFix fwdFix ["a", "bb"]).getD 0 []).length) ∧
    (argmaxIdx (((scoreGridOf (fun x : Int => x) tokFix fwdFix ["a", "bb"]).getD 0 []).getD 0 []) ≠ 0) ∧
    (lmFixFive (Int.ofNat (argmaxIdx
      (((scoreGridOf (fun x : Int => x) tokFix fwdFix ["a", "bb"]).getD 0 []).getD 0 []))) = none) ∧
    predict (fun x : Int => x) tokFix fwdFix dtFix lmFixFive ["a", "bb"] =
      RustOutcome.panicked "Index out of vocabulary bounds." :=
  ⟨by decide, by decide, by decide, by decide, by decide,
    claim1_amended (fun x : Int => x) tokFix fwdFix dtFix lmFixFive ["a", "bb"]
      0 0 (by decide) (by decide) (by decide) (by decide) (by decide)⟩

/-- Claim C3: the entity list of a successful predict call is ordered
batch-major then position-major: the (sentence_idx, position_idx)
coordinates attached by the decode loop are lexicographically sorted, so
all entities of input i precede those of input i+1 and positions are
non-decreasing within one input. -/
theorem claim3_ordering {α : Type} [LinearOrder α] [Zero α] [Add α] [Div α]
    (e : α → α) (tokenize : String → List Int)
    (forward : List (List Int) → List (List (List α)))
    (dt : Int → String) (lm : Int → Option String) (input : List String)
    (es : List ((Nat × Nat) × Entity α))
    (hok : predictIdx e tokenize forward dt lm input = RustOutcome.ok es) :
    List.Pairwise (fun x y : (Nat × Nat) × Entity α =>
      x.1.1 < y.1.1 ∨ (x.1.1 = y.1.1 ∧ x.1.2 ≤ y.1.2)) es := by
  cases hprep : prepare_for_model tokenize input with
  | none =>
    simp only [predictIdx, hprep] at hok
    exact RustOutcome.noConfusion hok
  | some t =>
    exact (decodeBatch_ok_sorted dt lm t (scoreTensor e (forward t)) 0 es
      ((predictIdx_ok_iff e tokenize forward dt lm input t es hprep).mp hok)).2

/-- Witness for C3: a concrete two-text call with four entities, whose
coordinate list ((0,0), (0,1), (1,0), (1,1)) is lexicographically sorted. -/
theorem claim3_witness :
    (predictIdx (fun x : Int => x) tokFix fwdFix dtFix lmFix ["a", "bb"] =
      RustOutcome.ok esFix) ∧
    List.Pairwise (fun x y : (Nat × Nat) × Entity Int =>
      x.1.1 < y.1.1 ∨ (x.1.1 = y.1.1 ∧ x.1.2 ≤ y.1.2)) esFix :=
  ⟨by decide, claim3_ordering (fun x : Int => x) tokFix fwdFix dtFix lmFix
    ["a", "bb"] esFix (by decide)⟩

/-- Claim C4: every entity returned by a successful predict call comes from
a (sentence, position) whose predicted (argmax) label-id is nonzero;
positions whose argmax is the reserved id 0 never contribute an entity. -/
theorem claim4_no_zero_label {α : Type} [LinearOrder α] [Zero α] [Add α] [Div α]
    (e : α → α) (tokenize : String → List Int)
    (forward : List (List Int) → List (List (List α)))
    (dt : Int → String) (lm : Int → Option String) (input : List String)
    (es : List ((Nat × Nat) × Entity α))
    (hok : predictIdx e tokenize forward dt lm input = RustOutcome.ok es) :
    ∀ x ∈ es,
      argmaxIdx (((scoreGridOf e tokenize forward input).getD x.1.1 []).getD
        x.1.2 []) ≠ 0 := by
  intro x hx
  cases hprep : prepare_for_model tokenize input with
  | none =>
    simp only [predictIdx, hprep] at hok
    exact RustOutcome.noConfusion hok
  | some t =>
    have hdec := (predictIdx_ok_iff e tokenize forward dt lm input t es hprep).mp hok
    obtain ⟨j, esj, hj, hrow, hxj⟩ :=
      decodeBatch_ok_mem dt lm t (scoreTensor e (forward t)) 0 es hdec x hx
    have hrow2 : decodeRow dt lm (t.getD j []) j 0
        ((scoreTensor e (forward t)).getD j []) = Except.ok esj := by
      simpa using hrow
    obtain ⟨k, hk, hcoord, hnzk, _, _, _⟩ :=
      decodeRow_ok_mem dt lm (t.getD j []) j ((scoreTensor e (forward t)).getD j [])
        0 esj hrow2 x hxj
    rw [scoreGridOf_eq e tokenize forward input t hprep]
    have h1 : x.1.1 = j := by rw [hcoord]
    have h2 : x.1.2 = k := by rw [hcoord]; simp
    rw [h1, h2]
    exact hnzk

/-- Witness for C4: in the concrete four-entity call, every entity
coordinate has a nonzero argmax in the score grid. -/
theorem claim4_witness :
    (predictIdx (fun x : Int => x) tokFix fwdFix dtFix lmFix ["a", "bb"] =
      RustOutcome.ok esFix) ∧
    ∀ x ∈ esFix,
      argmaxIdx (((scoreGridOf (fun x0 : Int => x0) tokFix fwdFix
        ["a", "bb"]).getD x.1.1 []).getD x.1.2 []) ≠ 0 :=
  ⟨by decide, claim4_no_zero_label (fun x : Int => x) tokFix fwdFix dtFix lmFix
    ["a", "bb"] esFix (by decide)⟩

/-- Claim C7: a non-empty call in which every (sentence, position) of the
score grid has predicted (argmax) label-id 0 returns the empty entity list
as a successful result, not an error. -/
theorem claim7_all_zero_ok {α : Type} [LinearOrder α] [Zero α] [Add α] [Div α]
    (e : α → α) (tokenize : String → List Int)
    (forward : List (List Int) → List (List (List α)))
    (dt : Int → String) (lm : Int → Option String) (input : List String)
    (h1 : input ≠ [])
    (hz : ∀ row ∈ scoreGridOf e tokenize forward input, ∀ v ∈ row, argmaxIdx v = 0) :
    predict e tokenize forward dt lm input = RustOutcome.ok [] := by
  obtain ⟨m, hm, heq⟩ := prepare_for_model_eq tokenize input h1
  rw [scoreGridOf_eq e tokenize forward input _ heq] at hz
  have hidx : predictIdx e tokenize forward dt lm input = RustOutcome.ok [] :=
    (predictIdx_ok_iff e tokenize forward dt lm input _ [] heq).mpr
      (decodeBatch_all_zero dt lm _ _ 0 hz)
  simpa using predict_eq_of_idx_ok e tokenize forward dt lm input [] hidx

/-- Witness for C7: a concrete call whose score vectors all have argmax 0
returns the empty list. -/
theorem claim7_witness :
    ((["a", "bb"] : List String) ≠ []) ∧
    (∀ row ∈ scoreGridOf (fun x : Int => x) tokFix fwdFixZero ["a", "bb"],
      ∀ v ∈ row, argmaxIdx v = 0) ∧
    predict (fun x : Int => x) tokFix fwdFixZero dtFix lmFix ["a", "bb"] =
      RustOutcome.ok [] :=
  ⟨by decide, by decide,
    claim7_all_zero_ok (fun x : Int => x) tokFix fwdFixZero dtFix lmFix
      ["a", "bb"] (by decide) (by decide)⟩

/-- Claim C10: the decode loop visits every position of the padded batch,
including right-padding positions beyond a sentence's true token count;
emission depends only on the argmax at the position being nonzero, so a
padding cell with nonzero argmax yields an entity whose word decodes the
padding token-id 0. -/
theorem claim10_padding_cell {α : Type} [LinearOrder α] [Zero α] [Add α] [Div α]
    (e : α → α) (tokenize : String → List Int)
    (forward : List (List Int) → List (List (List α)))
    (dt : Int → String) (lm : Int → Option String) (input : List String)
    (es : List ((Nat × Nat) × Entity α)) (s p : Nat)
    (hok : predictIdx e tokenize forward dt lm input = RustOutcome.ok es)
    (hs : s < input.length)
    (hp : p < ((scoreGridOf e tokenize forward input).getD s []).length)
    (hpad : (tokenize (input.getD s "")).length ≤ p)
    (hnz : argmaxIdx (((scoreGridOf e tokenize forward input).getD s []).getD p []) ≠ 0) :
    ∃ ent : Entity α, ((s, p), ent) ∈ es ∧ ent.word = dt 0 := by
  have h1 : input ≠ [] := by
    intro h0
    subst h0
    simp at hs
  obtain ⟨m, hm, heq⟩ := prepare_for_model_eq tokenize input h1
  set tp := (input.map tokenize).map
    (fun row => row ++ List.replicate (m - row.length) (0 : Int)) with htp
  rw [scoreGridOf_eq e tokenize forward input tp heq] at hp hnz
  have hdec := (predictIdx_ok_iff e tokenize forward dt lm input tp es heq).mp hok
  have hsrows : s < (scoreTensor e (forward tp)).length := by
    by_contra hcon
    rw [List.getD_eq_default _ _ (Nat.le_of_not_lt hcon)] at hp
    simp at hp
  obtain ⟨esj, hrow, hsub⟩ :=
    decodeBatch_ok_rows dt lm tp (scoreTensor e (forward tp)) 0 es hdec s hsrows
  have hrow2 : decodeRow dt lm (tp.getD s []) s 0
      ((scoreTensor e (forward tp)).getD s []) = Except.ok esj := by
    simpa using hrow
  have hmem := decodeRow_mem_of dt lm (tp.getD s []) s
    ((scoreTensor e (forward tp)).getD s []) 0 esj p hrow2 hp hnz
  obtain ⟨x, hxj, hx1⟩ := List.mem_map.mp hmem
  have hx1p : x.1 = (s, p) := by simpa using hx1
  obtain ⟨k, hk, hcoord, hnzk, hlmk, hword, hscore⟩ :=
    decodeRow_ok_mem dt lm (tp.getD s []) s ((scoreTensor e (forward tp)).getD s [])
      0 esj hrow2 x hxj
  have hkp : 0 + k = p := by
    rw [hx1p] at hcoord
    have h0 := congrArg Prod.snd hcoord
    simpa using h0.symm
  have hrowvec : tp.getD s [] =
      tokenize (input.getD s "") ++
        List.replicate (m - (tokenize (input.getD s "")).length) 0 := by
    have hlen1 : s < tp.length := by simp [htp, hs]
    rw [List.getD_eq_getElem _ _ hlen1]
    simp only [htp, List.getElem_map]
    rw [List.getD_eq_getElem input "" hs]
  have hcell : (tp.getD s []).getD p 0 = 0 := by
    rw [hrowvec, List.getD_append_right _ _ _ _ hpad, getD_replicate_self]
  refine ⟨x.2, ?_, ?_⟩
  · have hxx : ((s, p), x.2) = x := by rw [← hx1p]
    rw [hxx]
    exact hsub x hxj
  · rw [hword, hkp, hcell]

/-- Witness for C10: in the concrete two-text call, position 1 of sentence 0
is pure padding (text "a" has one token), yet it yields the entity whose
word is the decode of token-id 0. -/
theorem claim10_witness :
    (predictIdx (fun x : Int => x) tokFix fwdFix dtFix lmFix ["a", "bb"] =
      RustOutcome.ok esFix) ∧
    (0 < (["a", "bb"] : List String).length) ∧
    (1 < ((scoreGridOf (fun x : Int => x) tokFix fwdFix ["a", "bb"]).getD 0 []).length) ∧
    ((tokFix ((["a", "bb"] : List String).getD 0 "")).length ≤ 1) ∧
    (argmaxIdx (((scoreGridOf (fun x : Int => x) tokFix fwdFix
      ["a", "bb"]).getD 0 []).getD 1 []) ≠ 0) ∧
    ∃ ent : Entity Int, ((0, 1), ent) ∈ esFix ∧ ent.word = dtFix 0 :=
  ⟨by decide, by decide, by decide, by decide, by decide,
    claim10_padding_cell (fun x : Int => x) tokFix fwdFix dtFix lmFix
      ["a", "bb"] esFix 0 1 (by decide) (by decide) (by decide) (by decide)
      (by decide)⟩

/-- Claim C5: the decoded score vector at every (batch, position) coordinate
with a nonempty label axis is the softmax of the logits along the label
axis — score[b,p,l] = exp(logit[b,p,l]) / Σ exp(logit[b,p,l']) — hence a
probability distribution: entries in [0, 1] summing to exactly 1. -/
theorem claim5_softmax (output : List (List (List ℝ))) (b p : Nat)
    (h : (output.getD b []).getD p [] ≠ []) :
    ((scoreTensor Real.exp output).getD b []).getD p [] =
      ((output.getD b []).getD p []).map
        (fun x => Real.exp x / (((output.getD b []).getD p []).map Real.exp).sum) ∧
    (((scoreTensor Real.exp output).getD b []).getD p []).sum = 1 ∧
    ∀ y ∈ ((scoreTensor Real.exp output).getD b []).getD p [], 0 ≤ y ∧ y ≤ 1 := by
  have hst := scoreTensor_getD Real.exp output b p
  refine ⟨by rw [hst]; rfl, ?_, ?_⟩
  · rw [hst]
    exact softmaxBy_sum_eq_one Real.exp (fun x => Real.exp_pos x) _ h
  · rw [hst]
    exact softmaxBy_mem_bounds Real.exp (fun x => Real.exp_pos x) _

/-- Witness for C5 at the one-cell logits tensor [[[0]]]. -/
theorem claim5_witness :
    ((([[[(0 : ℝ)]]].getD 0 []).getD 0 []) ≠ []) ∧
    (((scoreTensor Real.exp [[[(0 : ℝ)]]]).getD 0 []).getD 0 [] =
      (([[[(0 : ℝ)]]].getD 0 []).getD 0 []).map
        (fun x => Real.exp x /
          ((([[[(0 : ℝ)]]].getD 0 []).getD 0 []).map Real.exp).sum) ∧
    (((scoreTensor Real.exp [[[(0 : ℝ)]]]).getD 0 []).getD 0 []).sum = 1 ∧
    ∀ y ∈ ((scoreTensor Real.exp [[[(0 : ℝ)]]]).getD 0 []).getD 0 [],
      0 ≤ y ∧ y ≤ 1) :=
  ⟨by simp, claim5_softmax [[[(0 : ℝ)]]] 0 0 (by simp)⟩

/-- Claim C6: over a linear ordered field with a pointwise-positive
exponential kernel, every entity of a successful predict call carries as
its score exactly the score-tensor value at (sentence, position, argmax),
which is the maximum of that position's score vector, and it lies in
[0, 1]. -/
theorem claim6_score_is_max {α : Type} [LinearOrderedField α] (e : α → α)
    (he : ∀ x, 0 < e x) (tokenize : String → List Int)
    (forward : List (List Int) → List (List (List α)))
    (dt : Int → String) (lm : Int → Option String) (input : List String)
    (es : List ((Nat × Nat) × Entity α))
    (hok : predictIdx e tokenize forward dt lm input = RustOutcome.ok es) :
    ∀ x ∈ es,
      x.2.score =
        (((scoreGridOf e tokenize forward input).getD x.1.1 []).getD x.1.2 []).getD
          (argmaxIdx (((scoreGridOf e tokenize forward input).getD x.1.1 []).getD
            x.1.2 [])) 0 ∧
      x.2.score ∈ ((scoreGridOf e tokenize forward input).getD x.1.1 []).getD x.1.2 [] ∧
      (∀ y ∈ ((scoreGridOf e tokenize forward input).getD x.1.1 []).getD x.1.2 [],
        y ≤ x.2.score) ∧
      0 ≤ x.2.score ∧ x.2.score ≤ 1 := by
  intro x hx
  cases hprep : prepare_for_model tokenize input with
  | none =>
    simp only [predictIdx, hprep] at hok
    exact RustOutcome.noConfusion hok
  | some t =>
    have hdec := (predictIdx_ok_iff e tokenize forward dt lm input t es hprep).mp hok
    obtain ⟨j, esj, hj, hrow, hxj⟩ :=
      decodeBatch_ok_mem dt lm t (scoreTensor e (forward t)) 0 es hdec x hx
    have hrow2 : decodeRow dt lm (t.getD j []) j 0
        ((scoreTensor e (forward t)).getD j []) = Except.ok esj := by
      simpa using hrow
    obtain ⟨k, hk, hcoord, hnzk, hlmk, hword, hscore⟩ :=
      decodeRow_ok_mem dt lm (t.getD j []) j ((scoreTensor e (forward t)).getD j [])
        0 esj hrow2 x hxj
    rw [scoreGridOf_eq e tokenize forward input t hprep]
    have h1 : x.1.1 = j := by rw [hcoord]
    have h2 : x.1.2 = k := by rw [hcoord]; simp
    rw [h1, h2]
    have hvne : ((scoreTensor e (forward t)).getD j []).getD k [] ≠ [] :=
      ne_nil_of_argmaxIdx_ne_zero _ hnzk
    refine ⟨hscore, ?_, ?_, ?_, ?_⟩
    · rw [hscore]
      exact getD_argmaxIdx_mem _ hvne 0
    · intro y hy
      rw [hscore]
      exact le_getD_argmaxIdx _ 0 y hy
    · have hmem : x.2.score ∈ ((scoreTensor e (forward t)).getD j []).getD k [] := by
        rw [hscore]
        exact getD_argmaxIdx_mem _ hvne 0
      rw [scoreTensor_getD] at hmem
      exact (softmaxBy_mem_bounds e he _ _ hmem).1
    · have hmem : x.2.score ∈ ((scoreTensor e (forward t)).getD j []).getD k [] := by
        rw [hscore]
        exact getD_argmaxIdx_mem _ hvne 0
      rw [scoreTensor_getD] at hmem
      exact (softmaxBy_mem_bounds e he _ _ hmem).2

/-! Fixtures and evaluation lemmas for the C6 witness, over ℚ with the
strictly positive kernel x ^ 2 + 1. -/

/-- Positive kernel standing in for the exponential in the C6 witness. -/
def eQ : ℚ → ℚ := fun x => x ^ 2 + 1

/-- One-token tokenizer for the C6 witness. -/
def tokOne : String → List Int := fun _ => [7]

/-- Forward fixture over ℚ: every position receives logits [0, 1]. -/
def fwdQ : List (List Int) → List (List (List ℚ)) :=
  fun t => t.map (fun r => r.map (fun _ => [0, 1]))

/-- The single entity produced by the ℚ fixtures on the batch ["a"]. -/
def esQ : List ((Nat × Nat) × Entity ℚ) :=
  [((0, 0), { word := "7", score := 2 / 3, label := "I-LOC" })]

/-- The witness kernel is pointwise positive. -/
lemma eQ_pos : ∀ x : ℚ, 0 < eQ x := by
  intro x
  simp only [eQ]
  positivity

/-- argmax of a strictly increasing pair is the second index. -/
lemma argmaxIdx_pair_lt {α : Type} [LinearOrder α] (a b : α) (h : a < b) :
    argmaxIdx [a, b] = 1 := by
  simp [argmaxIdx, max_eq_right h.le, List.indexOf_cons, beq_iff_eq, h.ne]

/-- The softmax of the fixture logits under the witness kernel. -/
lemma softmaxBy_eQ : softmaxBy eQ [0, 1] = [(3 : ℚ)⁻¹, 2 / 3] := by
  simp [softmaxBy, eQ]
  norm_num

/-- The argmax of the fixture score vector is label 1. -/
lemma argmax_eQ : argmaxIdx [(3 : ℚ)⁻¹, 2 / 3] = 1 := by
  apply argmaxIdx_pair_lt
  norm_num

/-- Concrete evaluation of predictIdx on the ℚ fixtures. -/
lemma predictIdx_eQ :
    predictIdx eQ tokOne fwdQ dtFix lmFix ["a"] = RustOutcome.ok esQ := by
  have hprep : prepare_for_model tokOne ["a"] = some [[7]] := by decide
  refine (predictIdx_ok_iff eQ tokOne fwdQ dtFix lmFix ["a"] [[7]] esQ hprep).mpr ?_
  have hst : scoreTensor eQ (fwdQ [[7]]) = [[[(3 : ℚ)⁻¹, 2 / 3]]] := by
    simp [scoreTensor, fwdQ, softmaxBy_eQ]
  rw [hst]
  simp [decodeBatch, decodeRow, argmax_eQ, lmFix, dtFix, esQ]
  rfl

/-- Witness for C6 at the ℚ fixtures: the single produced entity has score
2/3, the maximum of its softmax vector, inside [0, 1]. -/
theorem claim6_witness :
    (∀ x : ℚ, 0 < eQ x) ∧
    (predictIdx eQ tokOne fwdQ dtFix lmFix ["a"] = RustOutcome.ok esQ) ∧
    ∀ x ∈ esQ,
      x.2.score =
        (((scoreGridOf eQ tokOne fwdQ ["a"]).getD x.1.1 []).getD x.1.2 []).getD
          (argmaxIdx (((scoreGridOf eQ tokOne fwdQ ["a"]).getD x.1.1 []).getD
            x.1.2 [])) 0 ∧
      x.2.score ∈ ((scoreGridOf eQ tokOne fwdQ ["a"]).getD x.1.1 []).getD x.1.2 [] ∧
      (∀ y ∈ ((scoreGridOf eQ tokOne fwdQ ["a"]).getD x.1.1 []).getD x.1.2 [],
        y ≤ x.2.score) ∧
      0 ≤ x.2.score ∧ x.2.score ≤ 1 :=
  ⟨eQ_pos, predictIdx_eQ,
    claim6_score_is_max eQ eQ_pos tokOne fwdQ dtFix lmFix ["a"] esQ predictIdx_eQ⟩
